import Mathlib

/-!
Shallow embedding of `propagation.go` (package `standardtracer`): the three
trace-context propagation codecs (split-text, split-binary, HTTP-header) and
the theorems settling the specification claims about them.

Go strings are immutable byte sequences; attribute keys and values only ever
undergo byte-level operations (`[]byte(s)` / `string(b)` are byte-identities),
so they are modelled as lists of bytes (`List Nat`, each element < 256).
The text codec's state map performs textual operations (lower-casing,
`strconv` parsing), so its keys and values are modelled as Lean `String`s,
with ASCII case folding (the keys involved are ASCII).

`randomID()` is an external collaborator (a fresh random span id); every
JoinTrace model takes the id it returns as the `freshSpanID` parameter.
A Go runtime panic (e.g. `make([]byte, n)` with negative `n`, or a failed
unchecked type assertion) is modelled as the distinguished outcome
`panicked`, distinct from every returned error.
-/

/-! ## Big-endian byte encoding (encoding/binary, BigEndian) -/

/-- Big-endian interpretation of a byte list as a natural number. -/
def fromBytesBE (bs : List Nat) : Nat :=
  bs.foldl (fun a b => a * 256 + b) 0

/-- Big-endian encoding of `n` into exactly `k` bytes (low `8*k` bits). -/
def toBytesBE : Nat → Nat → List Nat
  | 0, _ => []
  | k + 1, n => toBytesBE k (n / 256) ++ [n % 256]

/-- Decode `k` bytes (big-endian) as a signed two's-complement integer,
as Go's `binary.Read` does for `intN` targets. -/
def decSigned (k : Nat) (bs : List Nat) : Int :=
  let n := fromBytesBE bs
  if 2 * n < 2 ^ (8 * k) then (n : Int) else (n : Int) - 2 ^ (8 * k)

/-- Encode integer `z` into `k` big-endian two's-complement bytes,
as Go's `binary.Write` does for `intN` values (low `8*k` bits kept). -/
def encSigned (k : Nat) (z : Int) : List Nat :=
  toBytesBE k (z % (2 : Int) ^ (8 * k)).toNat

/-! ## Reader model (bytes.Reader + binary.Read)

`binary.Read` on a `bytes.Reader` reads exactly the byte width of the target
via `io.ReadFull`; any shortfall is an error (EOF / unexpected EOF). -/

/-- Read exactly `n` bytes from the front of `buf`; `none` models the
read error `binary.Read` returns when the reader is exhausted early. -/
def readBytes (n : Nat) (buf : List Nat) : Option (List Nat × List Nat) :=
  if n ≤ buf.length then some (buf.take n, buf.drop n) else none

/-- Model of `binary.Read(r, BigEndian, &int64Var)`. -/
def readInt64 (buf : List Nat) : Option (Int × List Nat) :=
  (readBytes 8 buf).map (fun p => (decSigned 8 p.1, p.2))

/-- Model of `binary.Read(r, BigEndian, &int32Var)`. -/
def readInt32 (buf : List Nat) : Option (Int × List Nat) :=
  (readBytes 4 buf).map (fun p => (decSigned 4 p.1, p.2))

/-- Model of `binary.Read(r, BigEndian, &byteVar)`. -/
def readByte (buf : List Nat) : Option (Nat × List Nat) :=
  match buf with
  | [] => none
  | b :: rest => some (b, rest)

/-! ## Data model (StandardContext and the carriers)

`TraceID`, `SpanID`, `ParentSpanID` are Go `int64` values, modelled as `Int`
(theorems carry the int64 range where encoding needs it). Attribute keys and
values are byte strings. -/

abbrev ByteStr := List Nat

abbrev AttrMap := List (ByteStr × ByteStr)

structure StandardContext where
  TraceID : Int
  SpanID : Int
  ParentSpanID : Int
  Sampled : Bool
  traceAttrs : AttrMap
deriving DecidableEq

/-- opentracing.SplitTextCarrier: two string maps. The state map is textual
(`String` keys/values); the attribute map is the byte-string map copied
verbatim. -/
structure SplitTextCarrier where
  TracerState : List (String × String)
  TraceAttributes : AttrMap
deriving DecidableEq

/-- opentracing.SplitBinaryCarrier: two byte buffers. -/
structure SplitBinaryCarrier where
  TracerState : List Nat
  TraceAttributes : List Nat
deriving DecidableEq

/-- http.Header: a map from (canonical) header name to a list of values. -/
abbrev HttpHeader := List (String × List String)

/-- The dynamic `carrier interface{}` argument: one of the known carrier
types, or some unrelated value. -/
inductive Carrier where
  | text (c : SplitTextCarrier)
  | binary (c : SplitBinaryCarrier)
  | header (h : HttpHeader)
  | other
deriving DecidableEq

def Carrier.isText : Carrier → Bool
  | .text _ => true
  | _ => false

def Carrier.isBinary : Carrier → Bool
  | .binary _ => true
  | _ => false

def Carrier.isHeader : Carrier → Bool
  | .header _ => true
  | _ => false

/-- Error taxonomy of the propagation code (opentracing error values plus the
two fmt.Errorf errors of the text codec). -/
inductive PropagationError where
  | invalidCarrier
  | traceCorrupted
  | traceNotFound
  | unknownField (k : String)
  | missingFields (found : Nat)
deriving DecidableEq

/-- Result of a JoinTrace call: the StandardContext handed to
`startSpanInternal` on success, an error, or a Go runtime panic. -/
inductive JoinOutcome where
  | ok (ctx : StandardContext)
  | err (e : PropagationError)
  | panicked
deriving DecidableEq

/-- Result of an InjectSpan call: the updated carrier, an error, or a panic. -/
inductive InjectOutcome where
  | ok (c : Carrier)
  | err (e : PropagationError)
  | panicked
deriving DecidableEq

/-! ## Binary codec (splitBinaryPropagator), lines 109-235 -/

/-- The sampled flag byte: 1 if sampled else 0. -/
def sampledByte (b : Bool) : Nat := if b then 1 else 0

/-- The 17-byte state buffer: big-endian TraceID, big-endian SpanID,
sampled byte (splitBinaryPropagator.InjectSpan, contextBuf). -/
def encodeTracerState (sc : StandardContext) : List Nat :=
  encSigned 8 sc.TraceID ++ encSigned 8 sc.SpanID ++ [sampledByte sc.Sampled]

/-- One attribute entry: int32 key length, key bytes, int32 value length,
value bytes. -/
def encodeAttrEntry (kv : ByteStr × ByteStr) : List Nat :=
  encSigned 4 (kv.1.length : Int) ++ kv.1 ++ encSigned 4 (kv.2.length : Int) ++ kv.2

/-- The attributes buffer: int32 entry count, then the entries in map
iteration order (splitBinaryPropagator.InjectSpan, attrsBuf). -/
def encodeTraceAttributes (attrs : AttrMap) : List Nat :=
  encSigned 4 (attrs.length : Int) ++ (attrs.map encodeAttrEntry).flatten

/-- splitBinaryPropagator.InjectSpan writing into a SplitBinaryCarrier. -/
def splitBinaryInject (sc : StandardContext) : SplitBinaryCarrier :=
  ⟨encodeTracerState sc, encodeTraceAttributes sc.traceAttrs⟩

/-- Go map assignment `m[k] = v`: overwrite if present, else add. -/
def mapInsert (m : AttrMap) (k v : ByteStr) : AttrMap :=
  if m.any (fun kv => kv.1 == k) then
    m.map (fun kv => if kv.1 == k then (kv.1, v) else kv)
  else
    m ++ [(k, v)]

/-- Result of the attribute-reading loop. -/
inductive AttrsResult where
  | ok (m : AttrMap)
  | corrupted
  | panicked
deriving DecidableEq

/-- The body of the `for i := 0; i < iNumAttrs; i++` loop of
splitBinaryPropagator.JoinTrace, iterated `fuel` times. A negative key or
value length makes `make([]byte, n)` panic at runtime. -/
def readAttrEntries : Nat → List Nat → AttrMap → AttrsResult
  | 0, _, acc => .ok acc
  | fuel + 1, buf, acc =>
    match readInt32 buf with
    | none => .corrupted
    | some (keyLen, buf1) =>
      if keyLen < 0 then .panicked
      else
        match readBytes keyLen.toNat buf1 with
        | none => .corrupted
        | some (keyBytes, buf2) =>
          match readInt32 buf2 with
          | none => .corrupted
          | some (valLen, buf3) =>
            if valLen < 0 then .panicked
            else
              match readBytes valLen.toNat buf3 with
              | none => .corrupted
              | some (valBytes, buf4) =>
                readAttrEntries fuel buf4 (mapInsert acc keyBytes valBytes)

/-- The attributes stage of splitBinaryPropagator.JoinTrace: read the int32
entry count, then that many entries. `int(numAttrs)` of a negative count
gives a loop that runs zero times (`Int.toNat` clamps to 0), and a map
`make` hint that the Go runtime clamps to 0 without panicking. -/
def parseTraceAttributes (buf : List Nat) : AttrsResult :=
  match readInt32 buf with
  | none => .corrupted
  | some (numAttrs, rest) => readAttrEntries numAttrs.toNat rest []

/-- splitBinaryPropagator.JoinTrace on the two buffers, parameterized by the
`randomID()` value used for the new SpanID. -/
def splitBinaryJoinBufs (state attrsBuf : List Nat) (freshSpanID : Int) : JoinOutcome :=
  match readInt64 state with
  | none => .err .traceCorrupted
  | some (traceID, r1) =>
    match readInt64 r1 with
    | none => .err .traceCorrupted
    | some (propagatedSpanID, r2) =>
      match readByte r2 with
      | none => .err .traceCorrupted
      | some (sb, _) =>
        match parseTraceAttributes attrsBuf with
        | .corrupted => .err .traceCorrupted
        | .panicked => .panicked
        | .ok attrMap =>
          .ok ⟨traceID, freshSpanID, propagatedSpanID, sb != 0, attrMap⟩

/-- splitBinaryPropagator.JoinTrace including the checked carrier type
assertion. -/
def splitBinaryJoinTrace (carrier : Carrier) (freshSpanID : Int) : JoinOutcome :=
  match carrier with
  | .binary c => splitBinaryJoinBufs c.TracerState c.TraceAttributes freshSpanID
  | _ => .err .invalidCarrier

/-- splitBinaryPropagator.InjectSpan including the checked carrier type
assertion (both carrier fields are overwritten). -/
def splitBinaryInjectSpan (sc : StandardContext) (carrier : Carrier) : InjectOutcome :=
  match carrier with
  | .binary _ => .ok (.binary (splitBinaryInject sc))
  | _ => .err .invalidCarrier

/-! ## Text codec (splitTextPropagator), lines 32-107 -/

def fieldNameTraceID : String := "traceid"

def fieldNameSpanID : String := "spanid"

def fieldNameSampled : String := "sampled"

/-- ASCII lower-casing of one character (strings.ToLower on the ASCII
field names used here). -/
def lowerChar (c : Char) : Char :=
  if 'A' ≤ c ∧ c ≤ 'Z' then Char.ofNat (c.toNat + 32) else c

/-- Model of strings.ToLower (ASCII range). -/
def strToLower (s : String) : String := ⟨s.data.map lowerChar⟩

/-- Decimal digit value of a character, if it is one. -/
def digitVal (c : Char) : Option Nat :=
  if '0' ≤ c ∧ c ≤ '9' then some (c.toNat - 48) else none

def parseDigitsAux : List Char → Nat → Option Nat
  | [], acc => some acc
  | c :: rest, acc =>
    match digitVal c with
    | some d => parseDigitsAux rest (acc * 10 + d)
    | none => none

/-- Model of strconv.ParseInt(s, 10, 64): optional single sign, one or more
decimal digits, int64 range check. -/
def parseInt64 (s : String) : Option Int :=
  let p : Bool × List Char :=
    match s.data with
    | '-' :: r => (true, r)
    | '+' :: r => (false, r)
    | r => (false, r)
  match p.2 with
  | [] => none
  | body =>
    match parseDigitsAux body 0 with
    | none => none
    | some n =>
      if p.1 then (if n ≤ 2 ^ 63 then some (-(n : Int)) else none)
      else (if n < 2 ^ 63 then some (n : Int) else none)

/-- Model of strconv.ParseBool: exactly these twelve strings are accepted. -/
def parseBool (s : String) : Option Bool :=
  if s = "1" ∨ s = "t" ∨ s = "T" ∨ s = "true" ∨ s = "TRUE" ∨ s = "True" then some true
  else if s = "0" ∨ s = "f" ∨ s = "F" ∨ s = "false" ∨ s = "FALSE" ∨ s = "False" then some false
  else none

/-- Model of strconv.FormatInt(z, 10). -/
def formatInt (z : Int) : String := toString z

/-- Model of strconv.FormatBool. -/
def formatBool (b : Bool) : String := if b then "true" else "false"

/-- splitTextPropagator.InjectSpan: a fresh 3-entry state map and a fresh
copy of the attribute map written into the carrier. -/
def splitTextInject (sc : StandardContext) : SplitTextCarrier :=
  ⟨[(fieldNameTraceID, formatInt sc.TraceID),
    (fieldNameSpanID, formatInt sc.SpanID),
    (fieldNameSampled, formatBool sc.Sampled)],
   sc.traceAttrs⟩

/-- Result of the state-map loop of splitTextPropagator.JoinTrace. -/
inductive TextStateResult where
  | done (traceID propagatedSpanID : Int) (sampled : Bool) (count : Nat)
  | corrupted
  | unknown (k : String)
deriving DecidableEq

/-- The `for k, v := range splitTextCarrier.TracerState` loop with its
case-insensitive switch; the list order stands for one Go map iteration
order (theorems quantify over it). Accumulators are the zero-initialized
`traceID`, `propagatedSpanID`, `sampled`, `requiredFieldCount`. -/
def parseTracerState : List (String × String) → Int → Int → Bool → Nat → TextStateResult
  | [], t, s, smp, c => .done t s smp c
  | (k, v) :: rest, t, s, smp, c =>
    if strToLower k = fieldNameTraceID then
      match parseInt64 v with
      | none => .corrupted
      | some t2 => parseTracerState rest t2 s smp (c + 1)
    else if strToLower k = fieldNameSpanID then
      match parseInt64 v with
      | none => .corrupted
      | some s2 => parseTracerState rest t s2 smp (c + 1)
    else if strToLower k = fieldNameSampled then
      match parseBool v with
      | none => .corrupted
      | some b2 => parseTracerState rest t s b2 (c + 1)
    else .unknown k

/-- splitTextPropagator.JoinTrace on a SplitTextCarrier. Note the new
context receives the carrier's TraceAttributes map itself. -/
def splitTextJoinCarrier (c : SplitTextCarrier) (freshSpanID : Int) : JoinOutcome :=
  match parseTracerState c.TracerState 0 0 false 0 with
  | .corrupted => .err .traceCorrupted
  | .unknown k => .err (.unknownField k)
  | .done t s smp cnt =>
    if cnt < 3 then .err (.missingFields cnt)
    else .ok ⟨t, freshSpanID, s, smp, c.TraceAttributes⟩

/-- splitTextPropagator.JoinTrace including the checked carrier type
assertion. -/
def splitTextJoinTrace (carrier : Carrier) (freshSpanID : Int) : JoinOutcome :=
  match carrier with
  | .text c => splitTextJoinCarrier c freshSpanID
  | _ => .err .invalidCarrier

/-- splitTextPropagator.InjectSpan including the checked carrier type
assertion. -/
def splitTextInjectSpan (sc : StandardContext) (carrier : Carrier) : InjectOutcome :=
  match carrier with
  | .text _ => .ok (.text (splitTextInject sc))
  | _ => .err .invalidCarrier

/-- A state-map key the switch recognizes (case-insensitively). -/
def recognizedKey (k : String) : Bool :=
  strToLower k == fieldNameTraceID || strToLower k == fieldNameSpanID ||
    strToLower k == fieldNameSampled

/-- Whether a join outcome is the unknown-field error (for some key). -/
def isUnknownFieldErr : JoinOutcome → Bool
  | .err (.unknownField _) => true
  | _ => false

/-! ## base64 (encoding/base64 StdEncoding) -/

def b64Digits : List Char :=
  "ABCDEFGHIJKLMNOPQRSTUVWXYZabcdefghijklmnopqrstuvwxyz0123456789+/".data

def b64Char (n : Nat) : Char := b64Digits.getD n 'A'

def b64Val (c : Char) : Option Nat := b64Digits.findIdx? (fun d => d == c)

/-- StdEncoding.EncodeToString: 3-byte groups to 4 characters, '='-padded. -/
def b64EncodeChunks : List Nat → List Char
  | [] => []
  | [a] => [b64Char (a / 4), b64Char (a % 4 * 16), '=', '=']
  | [a, b] => [b64Char (a / 4), b64Char (a % 4 * 16 + b / 16), b64Char (b % 16 * 4), '=']
  | a :: b :: c :: rest =>
    b64Char (a / 4) :: b64Char (a % 4 * 16 + b / 16) :: b64Char (b % 16 * 4 + c / 64) ::
      b64Char (c % 64) :: b64EncodeChunks rest

def b64Encode (bs : List Nat) : String := ⟨b64EncodeChunks bs⟩

/-- StdEncoding.DecodeString: 4-character groups, padding only in a final
group, any character outside the alphabet is a corrupt-input error (`none`). -/
def b64DecodeChunks : List Char → Option (List Nat)
  | [] => some []
  | c1 :: c2 :: c3 :: c4 :: rest =>
    match b64Val c1, b64Val c2 with
    | some v1, some v2 =>
      if c3 = '=' then
        if c4 = '=' ∧ rest = [] then some [v1 * 4 + v2 / 16] else none
      else
        match b64Val c3 with
        | some v3 =>
          if c4 = '=' then
            if rest = [] then some [v1 * 4 + v2 / 16, v2 % 16 * 16 + v3 / 4] else none
          else
            match b64Val c4 with
            | some v4 =>
              (b64DecodeChunks rest).map
                (fun tl => (v1 * 4 + v2 / 16) :: (v2 % 16 * 16 + v3 / 4) :: (v3 % 4 * 64 + v4) :: tl)
            | none => none
        | none => none
    | _, _ => none
  | _ => none

def b64Decode (s : String) : Option (List Nat) := b64DecodeChunks s.data

/-! ## HTTP header carrier (net/http Header, net/textproto canonicalization) -/

def upperChar (c : Char) : Char :=
  if 'a' ≤ c ∧ c ≤ 'z' then Char.ofNat (c.toNat - 32) else c

/-- http.CanonicalHeaderKey on ASCII names: the first character and every
character following a '-' is upper-cased, the rest lower-cased. -/
def canonChars : List Char → Bool → List Char
  | [], _ => []
  | c :: rest, upper =>
    (if upper then upperChar c else lowerChar c) :: canonChars rest (c == '-')

def canonicalHeaderKey (s : String) : String := ⟨canonChars s.data true⟩

def tracerStateHeaderName : String := "Tracer-State"

def traceAttrsHeaderName : String := "Trace-Attributes"

/-- Map lookup `header[key]` (`found` is `Option.isSome`). -/
def headerGet (h : HttpHeader) (k : String) : Option (List String) :=
  (h.find? (fun p => p.1 == k)).map (fun p => p.2)

/-- http.Header.Add: canonicalize the name and append the value. -/
def headerAdd (h : HttpHeader) (k v : String) : HttpHeader :=
  let ck := canonicalHeaderKey k
  if h.any (fun p => p.1 == ck) then
    h.map (fun p => if p.1 == ck then (p.1, p.2 ++ [v]) else p)
  else h ++ [(ck, [v])]

/-! ## HTTP wrapper (goHTTPPropagator), lines 242-291

goHTTPPropagator performs `carrier.(http.Header)` with no `, ok` check: a
carrier of any other type is a runtime panic, not an error return. -/

/-- The header writes of goHTTPPropagator.InjectSpan: both binary buffers
base64-encoded and Added under the two header names. -/
def goHTTPInjectHeader (sc : StandardContext) (h : HttpHeader) : HttpHeader :=
  headerAdd (headerAdd h tracerStateHeaderName (b64Encode (splitBinaryInject sc).TracerState))
    traceAttrsHeaderName (b64Encode (splitBinaryInject sc).TraceAttributes)

def goHTTPInjectSpan (sc : StandardContext) (carrier : Carrier) : InjectOutcome :=
  match carrier with
  | .header h => .ok (.header (goHTTPInjectHeader sc h))
  | _ => .panicked

def goHTTPJoinTrace (carrier : Carrier) (freshSpanID : Int) : JoinOutcome :=
  match carrier with
  | .header h =>
    match headerGet h (canonicalHeaderKey tracerStateHeaderName) with
    | none => .err .traceNotFound
    | some [] => .err .traceNotFound
    | some (v1 :: _) =>
      match headerGet h (canonicalHeaderKey traceAttrsHeaderName) with
      | none => .err .traceNotFound
      | some [] => .err .traceNotFound
      | some (w1 :: _) =>
        match b64Decode v1 with
        | none => .err .traceCorrupted
        | some stateBinary =>
          match b64Decode w1 with
          | none => .err .traceCorrupted
          | some attrsBinary => splitBinaryJoinBufs stateBinary attrsBinary freshSpanID
  | _ => .panicked

/-! ## Reference-level model of the attribute maps

Go maps are reference types: assigning a map copies the reference, not the
entries. To state aliasing/freshness claims, the maps live in a heap of
allocated maps addressed by index; `alloc` models `make(map[string]string)`
(a fresh map that aliases nothing older). Only the attribute-map flow of
each operation is instrumented; the data these functions put in the heap is
the same as in the functional model above. -/

structure AttrHeap where
  maps : List AttrMap
deriving DecidableEq

def AttrHeap.get (h : AttrHeap) (r : Nat) : AttrMap := h.maps.getD r []

/-- Allocate a fresh map object; its address is new (one past the end). -/
def AttrHeap.alloc (h : AttrHeap) (m : AttrMap) : AttrHeap × Nat :=
  (⟨h.maps ++ [m]⟩, h.maps.length)

/-- The entry-copy loop `for k, v := range sc.traceAttrs` writing into a
fresh `make`-allocated map. -/
def copyAttrMap (m : AttrMap) : AttrMap :=
  m.foldl (fun acc kv => mapInsert acc kv.1 kv.2) []

/-- splitTextPropagator.InjectSpan, attribute-map flow: allocates a fresh
map, copies the context's entries into it, and hands the carrier the fresh
reference (lines 46-51). -/
def splitTextInjectAttrs (h : AttrHeap) (scAttrs : Nat) : AttrHeap × Nat :=
  h.alloc (copyAttrMap (h.get scAttrs))

/-- splitBinaryPropagator.InjectSpan, attribute-map flow: only reads the
context's map while serializing; allocates no map, writes no map. -/
def splitBinaryInjectAttrs (h : AttrHeap) (_scAttrs : Nat) : AttrHeap := h

/-- splitTextPropagator.JoinTrace, attribute-map flow: the new context's
`traceAttrs` is assigned `splitTextCarrier.TraceAttributes` itself
(line 101) — the carrier's reference, with no allocation. -/
def splitTextJoinAttrs (h : AttrHeap) (carrierAttrs : Nat) : AttrHeap × Nat :=
  (h, carrierAttrs)

/-- splitBinaryPropagator.JoinTrace, attribute-map flow: `attrMap` is a
fresh `make`-allocated map filled from the decoded bytes (lines 196-229). -/
def splitBinaryJoinAttrs (h : AttrHeap) (decoded : AttrMap) : AttrHeap × Nat :=
  h.alloc decoded

/-! # Theorems -/

/-! ## Byte-encoding lemmas -/

theorem toBytesBE_length (k n : Nat) : (toBytesBE k n).length = k := by
  induction k generalizing n with
  | zero => rfl
  | succ k ih => simp [toBytesBE, ih]

theorem toBytesBE_lt (k n : Nat) : ∀ b ∈ toBytesBE k n, b < 256 := by
  induction k generalizing n with
  | zero => intro b hb; simp [toBytesBE] at hb
  | succ k ih =>
    intro b hb
    simp only [toBytesBE, List.mem_append, List.mem_singleton] at hb
    rcases hb with hb | hb
    · exact ih _ b hb
    · subst hb; exact Nat.mod_lt _ (by norm_num)

theorem fromBytesBE_append_singleton (bs : List Nat) (b : Nat) :
    fromBytesBE (bs ++ [b]) = fromBytesBE bs * 256 + b := by
  simp [fromBytesBE, List.foldl_append]

theorem fromBytesBE_toBytesBE (k n : Nat) :
    fromBytesBE (toBytesBE k n) = n % 256 ^ k := by
  induction k generalizing n with
  | zero => simp [toBytesBE, fromBytesBE, Nat.mod_one]
  | succ k ih =>
    rw [toBytesBE, fromBytesBE_append_singleton, ih]
    rw [Nat.pow_succ, mul_comm (256 ^ k) 256, Nat.mod_mul]
    omega

theorem encSigned_length (k : Nat) (z : Int) : (encSigned k z).length = k :=
  toBytesBE_length _ _

theorem encSigned_lt (k : Nat) (z : Int) : ∀ b ∈ encSigned k z, b < 256 :=
  toBytesBE_lt _ _

theorem two_pow_eq (k : Nat) : (256 : Nat) ^ k = 2 ^ (8 * k) := by
  rw [show (256 : Nat) = 2 ^ 8 from rfl, ← pow_mul]

theorem decSigned_encSigned (k : Nat) (z : Int)
    (hlo : -(2 : Int) ^ (8 * k) ≤ 2 * z) (hhi : 2 * z < (2 : Int) ^ (8 * k)) :
    decSigned k (encSigned k z) = z := by
  have hM : (0 : Int) < (2 : Int) ^ (8 * k) := by positivity
  have hmod : z % (2 : Int) ^ (8 * k) = if 0 ≤ z then z else z + (2 : Int) ^ (8 * k) := by
    split
    · exact Int.emod_eq_of_lt (by assumption) (by omega)
    · have h1 : (z + (2 : Int) ^ (8 * k) * 1) % ((2 : Int) ^ (8 * k)) = z % ((2 : Int) ^ (8 * k)) :=
        Int.add_mul_emod_self_left z ((2 : Int) ^ (8 * k)) 1
      have h2 : (z + (2 : Int) ^ (8 * k)) % ((2 : Int) ^ (8 * k)) = z + (2 : Int) ^ (8 * k) :=
        Int.emod_eq_of_lt (by omega) (by omega)
      simp only [mul_one] at h1
      omega
  unfold decSigned encSigned
  rw [fromBytesBE_toBytesBE, two_pow_eq]
  have hcast : ((2 : Nat) ^ (8 * k) : Int) = (2 : Int) ^ (8 * k) := by push_cast; ring
  by_cases hz : 0 ≤ z
  · rw [hmod]; simp only [hz, if_true]
    have hzlt : z.toNat < 2 ^ (8 * k) := by omega
    rw [Nat.mod_eq_of_lt hzlt]
    have : (2 : Nat) * z.toNat < 2 ^ (8 * k) := by omega
    simp only [this, if_true]
    omega
  · rw [hmod]; simp only [hz, if_false]
    have hge : 0 ≤ z + (2 : Int) ^ (8 * k) := by omega
    have hlt : z + (2 : Int) ^ (8 * k) < (2 : Int) ^ (8 * k) := by omega
    have hzlt : (z + (2 : Int) ^ (8 * k)).toNat < 2 ^ (8 * k) := by omega
    rw [Nat.mod_eq_of_lt hzlt]
    have : ¬ (2 : Nat) * (z + (2 : Int) ^ (8 * k)).toNat < 2 ^ (8 * k) := by omega
    simp only [this, if_false]
    omega

theorem readBytes_append (n : Nat) (xs ys : List Nat) (h : xs.length = n) :
    readBytes n (xs ++ ys) = some (xs, ys) := by
  unfold readBytes
  rw [if_pos (by simp [h])]
  rw [List.take_append_of_le_length (by omega), List.drop_append_of_le_length (by omega)]
  simp [h]

theorem readBytes_short (n : Nat) (buf : List Nat) (h : buf.length < n) :
    readBytes n buf = none := by
  unfold readBytes
  rw [if_neg (by omega)]

theorem readBytes_exact (xs ys : List Nat) :
    readBytes xs.length (xs ++ ys) = some (xs, ys) :=
  readBytes_append _ _ _ rfl

theorem readInt64_enc (z : Int) (rest : List Nat) :
    readInt64 (encSigned 8 z ++ rest) = some (decSigned 8 (encSigned 8 z), rest) := by
  unfold readInt64
  rw [readBytes_append 8 _ _ (encSigned_length 8 z)]
  rfl

theorem readInt32_enc (z : Int) (rest : List Nat) :
    readInt32 (encSigned 4 z ++ rest) = some (decSigned 4 (encSigned 4 z), rest) := by
  unfold readInt32
  rw [readBytes_append 4 _ _ (encSigned_length 4 z)]
  rfl

theorem readInt64_none (buf : List Nat) (h : buf.length < 8) : readInt64 buf = none := by
  unfold readInt64
  rw [readBytes_short 8 buf h]
  rfl

theorem readInt32_none (buf : List Nat) (h : buf.length < 4) : readInt32 buf = none := by
  unfold readInt32
  rw [readBytes_short 4 buf h]
  rfl

theorem readInt64_some (buf : List Nat) (h : 8 ≤ buf.length) :
    readInt64 buf = some (decSigned 8 (buf.take 8), buf.drop 8) := by
  unfold readInt64 readBytes
  rw [if_pos h]
  rfl

theorem readByte_none (buf : List Nat) (h : buf.length = 0) : readByte buf = none := by
  cases buf with
  | nil => rfl
  | cons b r => simp at h

theorem decSigned_encSigned_int64 (z : Int)
    (hlo : -(2 : Int) ^ 63 ≤ z) (hhi : z < (2 : Int) ^ 63) :
    decSigned 8 (encSigned 8 z) = z := by
  have e64 : (2 : Int) ^ (8 * 8) = 18446744073709551616 := by norm_num
  have e63 : (2 : Int) ^ 63 = 9223372036854775808 := by norm_num
  rw [e63] at hlo hhi
  apply decSigned_encSigned
  · rw [e64]; omega
  · rw [e64]; omega

theorem decSigned_encSigned_int32 (z : Int)
    (hlo : -(2 : Int) ^ 31 ≤ z) (hhi : z < (2 : Int) ^ 31) :
    decSigned 4 (encSigned 4 z) = z := by
  have e32 : (2 : Int) ^ (8 * 4) = 4294967296 := by norm_num
  have e31 : (2 : Int) ^ 31 = 2147483648 := by norm_num
  rw [e31] at hlo hhi
  apply decSigned_encSigned
  · rw [e32]; omega
  · rw [e32]; omega

theorem decSigned_encSigned_nat32 (n : Nat) (h : n < 2 ^ 31) :
    decSigned 4 (encSigned 4 (n : Int)) = (n : Int) := by
  have e32 : (2 : Int) ^ (8 * 4) = 4294967296 := by norm_num
  have e31 : (2 : Nat) ^ 31 = 2147483648 := by norm_num
  rw [e31] at h
  apply decSigned_encSigned
  · rw [e32]; omega
  · rw [e32]; omega

/-! ## Round-trip lemmas for the binary codec -/

/-- Reading one well-formed attribute entry off the front of the buffer
performs one loop iteration. -/
theorem readAttrEntries_entry (fuel : Nat) (kv : ByteStr × ByteStr) (R : List Nat)
    (acc : AttrMap) (hk : kv.1.length < 2 ^ 31) (hv : kv.2.length < 2 ^ 31) :
    readAttrEntries (fuel + 1) (encodeAttrEntry kv ++ R) acc =
      readAttrEntries fuel R (mapInsert acc kv.1 kv.2) := by
  have hkdec := decSigned_encSigned_nat32 kv.1.length hk
  have hvdec := decSigned_encSigned_nat32 kv.2.length hv
  have hk0 : ¬ ((kv.1.length : Int) < 0) := by omega
  have hv0 : ¬ ((kv.2.length : Int) < 0) := by omega
  simp only [encodeAttrEntry, List.append_assoc, readAttrEntries, readInt32_enc, hkdec, hvdec,
    Int.toNat_natCast, hk0, if_false, readBytes_exact]
  rw [if_neg hv0]

/-- Reading the serialized entries of `l` succeeds and folds `mapInsert`
over them, leaving any remaining bytes unread. -/
theorem readAttrEntries_encode (l : AttrMap) (acc : AttrMap) (ext : List Nat)
    (hlen : ∀ kv ∈ l, kv.1.length < 2 ^ 31 ∧ kv.2.length < 2 ^ 31) :
    readAttrEntries l.length ((l.map encodeAttrEntry).flatten ++ ext) acc =
      .ok (l.foldl (fun m kv => mapInsert m kv.1 kv.2) acc) := by
  induction l generalizing acc with
  | nil => rfl
  | cons kv t ih =>
    have hkv := hlen kv (by simp)
    simp only [List.map_cons, List.flatten_cons, List.length_cons, List.append_assoc]
    rw [readAttrEntries_entry t.length kv _ acc hkv.1 hkv.2]
    rw [ih _ (fun kv2 h2 => hlen kv2 (by simp [h2]))]
    rfl

theorem mapInsert_notMem (acc : AttrMap) (k v : ByteStr)
    (h : k ∉ acc.map Prod.fst) : mapInsert acc k v = acc ++ [(k, v)] := by
  unfold mapInsert
  rw [if_neg]
  intro hany
  rw [List.any_eq_true] at hany
  rcases hany with ⟨kv, hkv, hbeq⟩
  rw [beq_iff_eq] at hbeq
  exact h (hbeq ▸ List.mem_map_of_mem Prod.fst hkv)

/-- Folding Go map insertion over entries with pairwise-distinct keys that
are all new appends them in order. -/
theorem foldl_mapInsert (l : AttrMap) (acc : AttrMap)
    (hnodup : (l.map Prod.fst).Nodup)
    (hdisj : ∀ k ∈ l.map Prod.fst, k ∉ acc.map Prod.fst) :
    l.foldl (fun m kv => mapInsert m kv.1 kv.2) acc = acc ++ l := by
  induction l generalizing acc with
  | nil => simp
  | cons kv t ih =>
    have h1 : kv.1 ∉ t.map Prod.fst ∧ (t.map Prod.fst).Nodup := by
      rw [List.map_cons, List.nodup_cons] at hnodup
      exact hnodup
    simp only [List.foldl_cons]
    rw [mapInsert_notMem acc kv.1 kv.2 (hdisj kv.1 (by simp))]
    rw [ih (acc ++ [(kv.1, kv.2)]) h1.2]
    · simp
    · intro k hk
      simp only [List.map_append, List.mem_append, List.map_cons, List.map_nil,
        List.mem_singleton, not_or]
      constructor
      · exact hdisj k (by simp [hk])
      · intro hkk
        exact h1.1 (hkk ▸ hk)

theorem parseTraceAttributes_encode (attrs : AttrMap)
    (hcnt : attrs.length < 2 ^ 31)
    (hlen : ∀ kv ∈ attrs, kv.1.length < 2 ^ 31 ∧ kv.2.length < 2 ^ 31)
    (hnodup : (attrs.map Prod.fst).Nodup) :
    parseTraceAttributes (encodeTraceAttributes attrs) = .ok attrs := by
  unfold parseTraceAttributes encodeTraceAttributes
  rw [readInt32_enc, decSigned_encSigned_nat32 attrs.length hcnt]
  simp only [Int.toNat_natCast]
  rw [show (attrs.map encodeAttrEntry).flatten
      = (attrs.map encodeAttrEntry).flatten ++ [] by simp]
  rw [readAttrEntries_encode attrs [] [] hlen]
  rw [foldl_mapInsert attrs [] hnodup (by simp)]
  simp

theorem sampledByte_ne_zero (b : Bool) : (sampledByte b != 0) = b := by
  cases b <;> rfl

/-- splitBinaryJoinBufs on a serialized state buffer, as a function of the
attributes-parsing stage. -/
theorem splitBinaryJoinBufs_parse (sc : StandardContext) (A : List Nat) (fresh : Int) :
    splitBinaryJoinBufs (encodeTracerState sc) A fresh =
      match parseTraceAttributes A with
      | .corrupted => .err .traceCorrupted
      | .panicked => .panicked
      | .ok attrMap => .ok ⟨decSigned 8 (encSigned 8 sc.TraceID), fresh,
          decSigned 8 (encSigned 8 sc.SpanID), sampledByte sc.Sampled != 0, attrMap⟩ := by
  simp only [splitBinaryJoinBufs, encodeTracerState, List.append_assoc, readInt64_enc, readByte]

/-- A state buffer shorter than 17 bytes fails one of the three reads. -/
theorem splitBinaryJoinBufs_shortState (state attrsBuf : List Nat) (fresh : Int)
    (h : state.length < 17) :
    splitBinaryJoinBufs state attrsBuf fresh = .err .traceCorrupted := by
  by_cases h8 : state.length < 8
  · simp only [splitBinaryJoinBufs, readInt64_none state h8]
  · by_cases h16 : state.length < 16
    · simp only [splitBinaryJoinBufs, readInt64_some state (by omega),
        readInt64_none (state.drop 8) (by rw [List.length_drop]; omega)]
    · simp only [splitBinaryJoinBufs, readInt64_some state (by omega),
        readInt64_some (state.drop 8) (by rw [List.length_drop]; omega),
        readByte_none ((state.drop 8).drop 8) (by simp only [List.length_drop]; omega)]

/-- Cutting a single serialized attribute entry anywhere strictly inside it
makes the entry reads fail with a corrupted result. -/
theorem readAttrEntries_truncEntry (kv : ByteStr × ByteStr) (fuel : Nat) (acc : AttrMap)
    (m : Nat) (hk : kv.1.length < 2 ^ 31) (hv : kv.2.length < 2 ^ 31)
    (hm : m < (encodeAttrEntry kv).length) :
    readAttrEntries (fuel + 1) ((encodeAttrEntry kv).take m) acc = .corrupted := by
  have hEL : (encodeAttrEntry kv).length = kv.1.length + kv.2.length + 8 := by
    simp [encodeAttrEntry, encSigned_length]
    omega
  have hk0 : ¬ ((kv.1.length : Int) < 0) := by omega
  have hkdec := decSigned_encSigned_nat32 kv.1.length hk
  have hvdec := decSigned_encSigned_nat32 kv.2.length hv
  have hassoc : encodeAttrEntry kv
      = encSigned 4 (kv.1.length : Int) ++ (kv.1 ++ (encSigned 4 (kv.2.length : Int) ++ kv.2)) := by
    simp [encodeAttrEntry, List.append_assoc]
  by_cases h4 : m < 4
  · have hshort : ((encodeAttrEntry kv).take m).length < 4 := by
      rw [List.length_take]; omega
    simp only [readAttrEntries, readInt32_none _ hshort]
  · rw [hassoc, List.take_append_eq_append_take,
      List.take_of_length_le (by rw [encSigned_length]; omega), encSigned_length]
    by_cases hklen : m - 4 < kv.1.length
    · have hshort :
          ((kv.1 ++ (encSigned 4 (kv.2.length : Int) ++ kv.2)).take (m - 4)).length
            < kv.1.length := by
        rw [List.length_take, List.length_append, List.length_append, encSigned_length]
        omega
      simp only [readAttrEntries, readInt32_enc, hkdec, Int.toNat_natCast, hk0, if_false,
        readBytes_short _ _ hshort]
    · rw [List.take_append_eq_append_take, List.take_of_length_le (by omega)]
      by_cases hm2 : m - 4 - kv.1.length < 4
      · have hshort :
            ((encSigned 4 (kv.2.length : Int) ++ kv.2).take (m - 4 - kv.1.length)).length < 4 := by
          rw [List.length_take, List.length_append, encSigned_length]
          omega
        simp only [readAttrEntries, readInt32_enc, hkdec, Int.toNat_natCast, hk0, if_false,
          readBytes_exact, readInt32_none _ hshort]
      · rw [List.take_append_eq_append_take,
          List.take_of_length_le (by rw [encSigned_length]; omega), encSigned_length]
        have hv0 : ¬ ((kv.2.length : Int) < 0) := by omega
        have hshort : (kv.2.take (m - 4 - kv.1.length - 4)).length < kv.2.length := by
          rw [List.length_take]
          omega
        simp only [readAttrEntries, readInt32_enc, hkdec, hvdec, Int.toNat_natCast, hk0, hv0,
          if_false, readBytes_exact, readBytes_short _ _ hshort]

/-- Cutting the concatenated serialized entries anywhere strictly short of
their full length makes the reading loop fail with a corrupted result. -/
theorem readAttrEntries_trunc (l : AttrMap) (acc : AttrMap) (m : Nat)
    (hlen : ∀ kv ∈ l, kv.1.length < 2 ^ 31 ∧ kv.2.length < 2 ^ 31)
    (hm : m < ((l.map encodeAttrEntry).flatten).length) :
    readAttrEntries l.length (((l.map encodeAttrEntry).flatten).take m) acc = .corrupted := by
  induction l generalizing acc m with
  | nil => simp at hm
  | cons kv t ih =>
    have hkv := hlen kv (by simp)
    simp only [List.map_cons, List.flatten_cons, List.length_cons] at hm ⊢
    rw [List.length_append] at hm
    by_cases hcut : m < (encodeAttrEntry kv).length
    · rw [List.take_append_eq_append_take,
        show m - (encodeAttrEntry kv).length = 0 from by omega, List.take_zero,
        List.append_nil]
      exact readAttrEntries_truncEntry kv t.length acc m hkv.1 hkv.2 hcut
    · rw [List.take_append_eq_append_take, List.take_of_length_le (by omega)]
      rw [readAttrEntries_entry t.length kv _ acc hkv.1 hkv.2]
      exact ih _ _ (fun kv2 h2 => hlen kv2 (by simp [h2])) (by omega)

/-- Any strict prefix of a serialized attributes buffer parses as
corrupted. -/
theorem parseTraceAttributes_trunc (attrs : AttrMap) (m : Nat)
    (hcnt : attrs.length < 2 ^ 31)
    (hlen : ∀ kv ∈ attrs, kv.1.length < 2 ^ 31 ∧ kv.2.length < 2 ^ 31)
    (hm : m < (encodeTraceAttributes attrs).length) :
    parseTraceAttributes ((encodeTraceAttributes attrs).take m) = .corrupted := by
  by_cases h4 : m < 4
  · have hshort : ((encodeTraceAttributes attrs).take m).length < 4 := by
      rw [List.length_take]; omega
    simp only [parseTraceAttributes, readInt32_none _ hshort]
  · unfold encodeTraceAttributes at hm ⊢
    rw [List.take_append_eq_append_take,
      List.take_of_length_le (by rw [encSigned_length]; omega), encSigned_length]
    simp only [parseTraceAttributes, readInt32_enc,
      decSigned_encSigned_nat32 attrs.length hcnt, Int.toNat_natCast]
    apply readAttrEntries_trunc attrs [] (m - 4) hlen
    rw [List.length_append, encSigned_length] at hm
    omega

/-- A negative attribute count deserializes as zero entries: the loop runs
zero times and the parse succeeds with the empty map. -/
theorem parseTraceAttributes_negCount (cnt : Int) (rest : List Nat)
    (h1 : -(2 : Int) ^ 31 ≤ cnt) (h2 : cnt < 0) :
    parseTraceAttributes (encSigned 4 cnt ++ rest) = .ok [] := by
  have hpos : (0 : Int) < (2 : Int) ^ 31 := by positivity
  have hdec := decSigned_encSigned_int32 cnt h1 (by omega)
  simp only [parseTraceAttributes, readInt32_enc, hdec]
  rw [show cnt.toNat = 0 from by omega]
  rfl

/-- A negative key-length prefix in the first entry panics
(`make([]byte, keyLen)` with a negative length). -/
theorem parseTraceAttributes_negKeyLen (cnt keyLen : Int) (rest : List Nat)
    (hc1 : 1 ≤ cnt) (hc2 : cnt < (2 : Int) ^ 31)
    (hk1 : -(2 : Int) ^ 31 ≤ keyLen) (hk2 : keyLen < 0) :
    parseTraceAttributes (encSigned 4 cnt ++ (encSigned 4 keyLen ++ rest)) = .panicked := by
  have hpos : (0 : Int) < (2 : Int) ^ 31 := by positivity
  have hcdec := decSigned_encSigned_int32 cnt (by omega) hc2
  have hkdec := decSigned_encSigned_int32 keyLen hk1 (by omega)
  simp only [parseTraceAttributes, readInt32_enc, hcdec]
  obtain ⟨n, hn⟩ : ∃ n, cnt.toNat = n + 1 := ⟨cnt.toNat - 1, by omega⟩
  rw [hn]
  simp only [readAttrEntries, readInt32_enc, hkdec, if_pos hk2]

/-! ## Claim C1 -/

/-- C1: deserializing the result of serializing a context with the Binary
Codec yields a context whose TraceID, Sampled flag and attribute map equal
the original's and whose ParentSpanID equals the original's SpanID; its
SpanID is the freshly generated id, which (the generator never handing back
the id just consumed) differs from the original's SpanID. -/
theorem C1_binary_roundtrip (sc : StandardContext) (fresh : Int)
    (hT1 : -(2 : Int) ^ 63 ≤ sc.TraceID) (hT2 : sc.TraceID < (2 : Int) ^ 63)
    (hS1 : -(2 : Int) ^ 63 ≤ sc.SpanID) (hS2 : sc.SpanID < (2 : Int) ^ 63)
    (hcnt : sc.traceAttrs.length < 2 ^ 31)
    (hlen : ∀ kv ∈ sc.traceAttrs, kv.1.length < 2 ^ 31 ∧ kv.2.length < 2 ^ 31)
    (hnodup : (sc.traceAttrs.map Prod.fst).Nodup)
    (hfresh : fresh ≠ sc.SpanID) :
    splitBinaryJoinTrace (.binary (splitBinaryInject sc)) fresh =
      .ok ⟨sc.TraceID, fresh, sc.SpanID, sc.Sampled, sc.traceAttrs⟩ ∧ fresh ≠ sc.SpanID := by
  refine ⟨?_, hfresh⟩
  show splitBinaryJoinBufs (encodeTracerState sc) (encodeTraceAttributes sc.traceAttrs) fresh = _
  simp only [splitBinaryJoinBufs_parse, parseTraceAttributes_encode sc.traceAttrs hcnt hlen hnodup,
    decSigned_encSigned_int64 sc.TraceID hT1 hT2, decSigned_encSigned_int64 sc.SpanID hS1 hS2,
    sampledByte_ne_zero]

theorem C1_binary_roundtrip_witness :
    splitBinaryJoinTrace (.binary (splitBinaryInject
        ⟨42, 7, 0, true, [([117, 115, 101, 114], [97, 108, 105, 99, 101])]⟩)) 99 =
      .ok ⟨42, 99, 7, true, [([117, 115, 101, 114], [97, 108, 105, 99, 101])]⟩ ∧
      (99 : Int) ≠ 7 :=
  C1_binary_roundtrip ⟨42, 7, 0, true, [([117, 115, 101, 114], [97, 108, 105, 99, 101])]⟩ 99
    (by norm_num) (by norm_num) (by norm_num) (by norm_num) (by norm_num)
    (by decide) (by decide) (by decide)

/-! ## Claim C2 -/

/-- C2 counterexample: an attributes buffer whose 4-byte entry count is -1
(bytes 255 255 255 255) does not yield a corrupted-trace error; deserialize
succeeds and returns a context with an empty attribute map. -/
theorem C2_negative_count_counterexample :
    splitBinaryJoinTrace (.binary ⟨List.replicate 17 0, [255, 255, 255, 255]⟩) 5 =
      .ok ⟨0, 5, 0, false, []⟩ ∧
    splitBinaryJoinTrace (.binary ⟨List.replicate 17 0, [255, 255, 255, 255]⟩) 5 ≠
      .err .traceCorrupted :=
  ⟨by decide, by decide⟩

/-- C2 (amended): a negative 4-byte entry count makes the deserialize loop
run zero times, so deserialize succeeds with an empty attribute map rather
than returning a corrupted-trace error; a negative per-entry key length
prefix causes a runtime panic (`make([]byte, n)` with negative `n`), not a
corrupted-trace error. -/
theorem C2_amended_negative_lengths :
    (∀ (sc : StandardContext) (cnt : Int) (rest : List Nat) (fresh : Int),
       -(2 : Int) ^ 31 ≤ cnt → cnt < 0 →
       -(2 : Int) ^ 63 ≤ sc.TraceID → sc.TraceID < (2 : Int) ^ 63 →
       -(2 : Int) ^ 63 ≤ sc.SpanID → sc.SpanID < (2 : Int) ^ 63 →
       splitBinaryJoinTrace (.binary ⟨encodeTracerState sc, encSigned 4 cnt ++ rest⟩) fresh =
         .ok ⟨sc.TraceID, fresh, sc.SpanID, sc.Sampled, []⟩) ∧
    (∀ (sc : StandardContext) (cnt keyLen : Int) (rest : List Nat) (fresh : Int),
       1 ≤ cnt → cnt < (2 : Int) ^ 31 → -(2 : Int) ^ 31 ≤ keyLen → keyLen < 0 →
       splitBinaryJoinTrace (.binary ⟨encodeTracerState sc,
           encSigned 4 cnt ++ (encSigned 4 keyLen ++ rest)⟩) fresh = .panicked) := by
  constructor
  · intro sc cnt rest fresh hc1 hc2 hT1 hT2 hS1 hS2
    simp only [splitBinaryJoinTrace, splitBinaryJoinBufs_parse, parseTraceAttributes_negCount cnt rest hc1 hc2,
      decSigned_encSigned_int64 sc.TraceID hT1 hT2, decSigned_encSigned_int64 sc.SpanID hS1 hS2,
      sampledByte_ne_zero]
  · intro sc cnt keyLen rest fresh hc1 hc2 hk1 hk2
    simp only [splitBinaryJoinTrace, splitBinaryJoinBufs_parse,
      parseTraceAttributes_negKeyLen cnt keyLen rest hc1 hc2 hk1 hk2]

theorem C2_amended_negative_lengths_witness :
    splitBinaryJoinTrace (.binary ⟨encodeTracerState ⟨1, 2, 0, false, []⟩,
        encSigned 4 (-1) ++ []⟩) 5 = .ok ⟨1, 5, 2, false, []⟩ ∧
    splitBinaryJoinTrace (.binary ⟨encodeTracerState ⟨1, 2, 0, false, []⟩,
        encSigned 4 1 ++ (encSigned 4 (-1) ++ [])⟩) 5 = .panicked :=
  ⟨C2_amended_negative_lengths.1 ⟨1, 2, 0, false, []⟩ (-1) [] 5 (by norm_num) (by norm_num)
     (by norm_num) (by norm_num) (by norm_num) (by norm_num),
   C2_amended_negative_lengths.2 ⟨1, 2, 0, false, []⟩ 1 (-1) [] 5 (by norm_num) (by norm_num)
     (by norm_num) (by norm_num)⟩

/-! ## Claim C4 -/

/-- C4: a state buffer truncated to fewer than 17 bytes always deserializes
as a corrupted-trace error, and a serialized attributes buffer truncated
anywhere strictly short of its full length (in particular mid-entry: inside
a length prefix, key bytes, or value bytes) always deserializes as a
corrupted-trace error — never a successfully built context. -/
theorem C4_truncation :
    (∀ (state attrsBuf : List Nat) (fresh : Int), state.length < 17 →
       splitBinaryJoinTrace (.binary ⟨state, attrsBuf⟩) fresh = .err .traceCorrupted) ∧
    (∀ (sc : StandardContext) (m : Nat) (fresh : Int),
       sc.traceAttrs.length < 2 ^ 31 →
       (∀ kv ∈ sc.traceAttrs, kv.1.length < 2 ^ 31 ∧ kv.2.length < 2 ^ 31) →
       m < (encodeTraceAttributes sc.traceAttrs).length →
       splitBinaryJoinTrace
           (.binary ⟨encodeTracerState sc, (encodeTraceAttributes sc.traceAttrs).take m⟩) fresh =
         .err .traceCorrupted) := by
  constructor
  · intro state attrsBuf fresh h
    exact splitBinaryJoinBufs_shortState state attrsBuf fresh h
  · intro sc m fresh hcnt hlen hm
    simp only [splitBinaryJoinTrace, splitBinaryJoinBufs_parse, parseTraceAttributes_trunc sc.traceAttrs m hcnt hlen hm]

theorem C4_truncation_witness :
    splitBinaryJoinTrace (.binary ⟨[0, 0, 0], []⟩) 5 = .err .traceCorrupted ∧
    splitBinaryJoinTrace (.binary ⟨encodeTracerState
        ⟨42, 7, 0, true, [([117, 115, 101, 114], [97, 108, 105, 99, 101])]⟩,
        (encodeTraceAttributes [([117, 115, 101, 114], [97, 108, 105, 99, 101])]).take 10⟩) 5 =
      .err .traceCorrupted :=
  ⟨C4_truncation.1 [0, 0, 0] [] 5 (by norm_num),
   C4_truncation.2 ⟨42, 7, 0, true, [([117, 115, 101, 114], [97, 108, 105, 99, 101])]⟩ 10 5
     (by norm_num) (by decide) (by decide)⟩

/-! ## Text codec lemmas -/

theorem recognizedKey_false_iff (k : String) :
    recognizedKey k = false ↔ strToLower k ≠ fieldNameTraceID ∧
      strToLower k ≠ fieldNameSpanID ∧ strToLower k ≠ fieldNameSampled := by
  simp [recognizedKey, Bool.or_eq_false_iff, beq_eq_false_iff_ne]
  tauto

theorem recognizedKey_true_iff (k : String) :
    recognizedKey k = true ↔ strToLower k = fieldNameTraceID ∨
      strToLower k = fieldNameSpanID ∨ strToLower k = fieldNameSampled := by
  simp [recognizedKey, Bool.or_eq_true, beq_iff_eq]
  tauto

/-- When every state-map entry is recognized and parses, the loop completes,
incrementing the recognized-field count once per entry. -/
theorem parseTracerState_all_recognized (st : List (String × String))
    (h : ∀ kv ∈ st, (strToLower kv.1 = fieldNameTraceID ∧ (parseInt64 kv.2).isSome = true) ∨
        (strToLower kv.1 = fieldNameSpanID ∧ (parseInt64 kv.2).isSome = true) ∨
        (strToLower kv.1 = fieldNameSampled ∧ (parseBool kv.2).isSome = true)) :
    ∀ t s smp c, ∃ t2 s2 smp2,
      parseTracerState st t s smp c = .done t2 s2 smp2 (c + st.length) := by
  have hne1 : fieldNameSpanID ≠ fieldNameTraceID := by decide
  have hne2 : fieldNameSampled ≠ fieldNameTraceID := by decide
  have hne3 : fieldNameSampled ≠ fieldNameSpanID := by decide
  induction st with
  | nil =>
    intro t s smp c
    exact ⟨t, s, smp, by simp [parseTracerState]⟩
  | cons kv rest ih =>
    obtain ⟨k, v⟩ := kv
    intro t s smp c
    have hkv := h (k, v) (by simp)
    have ihr := ih (fun kv2 h2 => h kv2 (by simp [h2]))
    have hlen : (rest.length + 1) + c = (c + 1) + rest.length := by omega
    rcases hkv with ⟨hkey, hval⟩ | ⟨hkey, hval⟩ | ⟨hkey, hval⟩
    · obtain ⟨v2, hv2⟩ := Option.isSome_iff_exists.mp hval
      obtain ⟨t3, s3, smp3, hd⟩ := ihr v2 s smp (c + 1)
      refine ⟨t3, s3, smp3, ?_⟩
      simp only [parseTracerState, hkey, if_true, hv2, hd, List.length_cons]
      rw [show c + (rest.length + 1) = (c + 1) + rest.length from by omega]
    · obtain ⟨v2, hv2⟩ := Option.isSome_iff_exists.mp hval
      obtain ⟨t3, s3, smp3, hd⟩ := ihr t v2 smp (c + 1)
      refine ⟨t3, s3, smp3, ?_⟩
      simp only [parseTracerState, hkey, if_neg hne1, if_true, hv2, hd, List.length_cons]
      rw [show c + (rest.length + 1) = (c + 1) + rest.length from by omega]
    · obtain ⟨v2, hv2⟩ := Option.isSome_iff_exists.mp hval
      obtain ⟨t3, s3, smp3, hd⟩ := ihr t s v2 (c + 1)
      refine ⟨t3, s3, smp3, ?_⟩
      simp only [parseTracerState, hkey, if_neg hne2, if_neg hne3, if_true, hv2, hd,
        List.length_cons]
      rw [show c + (rest.length + 1) = (c + 1) + rest.length from by omega]

/-- When some entry's key is unrecognized and every recognized entry
parses, the loop stops at an unrecognized key with the unknown result. -/
theorem parseTracerState_unknown (st : List (String × String))
    (hbad : ∃ kv ∈ st, recognizedKey kv.1 = false)
    (hgood : ∀ kv ∈ st, recognizedKey kv.1 = true →
       (strToLower kv.1 = fieldNameTraceID → (parseInt64 kv.2).isSome = true) ∧
       (strToLower kv.1 = fieldNameSpanID → (parseInt64 kv.2).isSome = true) ∧
       (strToLower kv.1 = fieldNameSampled → (parseBool kv.2).isSome = true)) :
    ∀ t s smp c, ∃ k, parseTracerState st t s smp c = .unknown k ∧
      recognizedKey k = false := by
  have hne1 : fieldNameSpanID ≠ fieldNameTraceID := by decide
  have hne2 : fieldNameSampled ≠ fieldNameTraceID := by decide
  have hne3 : fieldNameSampled ≠ fieldNameSpanID := by decide
  induction st with
  | nil => simp at hbad
  | cons kv rest ih =>
    obtain ⟨k, v⟩ := kv
    intro t s smp c
    by_cases hk : recognizedKey k = true
    · have hparse := hgood (k, v) (by simp) hk
      have hbadrest : ∃ kv2 ∈ rest, recognizedKey kv2.1 = false := by
        rcases hbad with ⟨kv2, hmem, hf⟩
        rcases List.mem_cons.mp hmem with rfl | hmem2
        · rw [hk] at hf; cases hf
        · exact ⟨kv2, hmem2, hf⟩
      have ihr := ih hbadrest (fun kv2 h2 => hgood kv2 (by simp [h2]))
      rcases (recognizedKey_true_iff k).mp hk with hkey | hkey | hkey
      · obtain ⟨v2, hv2⟩ := Option.isSome_iff_exists.mp (hparse.1 hkey)
        obtain ⟨k2, hd, hkf⟩ := ihr v2 s smp (c + 1)
        exact ⟨k2, by simp only [parseTracerState, hkey, if_true, hv2, hd], hkf⟩
      · obtain ⟨v2, hv2⟩ := Option.isSome_iff_exists.mp (hparse.2.1 hkey)
        obtain ⟨k2, hd, hkf⟩ := ihr t v2 smp (c + 1)
        exact ⟨k2, by simp only [parseTracerState, hkey, if_neg hne1, if_true, hv2, hd], hkf⟩
      · obtain ⟨v2, hv2⟩ := Option.isSome_iff_exists.mp (hparse.2.2 hkey)
        obtain ⟨k2, hd, hkf⟩ := ihr t s v2 (c + 1)
        exact ⟨k2,
          by simp only [parseTracerState, hkey, if_neg hne2, if_neg hne3, if_true, hv2, hd],
          hkf⟩
    · have hkf : recognizedKey k = false := by
        cases hrk : recognizedKey k
        · rfl
        · exact absurd hrk hk
      have hcond := (recognizedKey_false_iff k).mp hkf
      refine ⟨k, ?_, hkf⟩
      simp only [parseTracerState, if_neg hcond.1, if_neg hcond.2.1, if_neg hcond.2.2]

/-! ## Claim C7 -/

/-- C7: a text-carrier state map in which every entry is recognized and
parses but fewer than three recognized fields occur makes the Text Codec's
deserialize return the missing-field error naming how many were found. -/
theorem C7_missing_fields (st : List (String × String)) (attrs : AttrMap) (fresh : Int)
    (hrec : ∀ kv ∈ st, (strToLower kv.1 = fieldNameTraceID ∧ (parseInt64 kv.2).isSome = true) ∨
        (strToLower kv.1 = fieldNameSpanID ∧ (parseInt64 kv.2).isSome = true) ∨
        (strToLower kv.1 = fieldNameSampled ∧ (parseBool kv.2).isSome = true))
    (hcount : st.length < 3) :
    splitTextJoinTrace (.text ⟨st, attrs⟩) fresh = .err (.missingFields st.length) := by
  obtain ⟨t2, s2, smp2, hd⟩ := parseTracerState_all_recognized st hrec 0 0 false 0
  simp only [splitTextJoinTrace, splitTextJoinCarrier, hd, Nat.zero_add]
  rw [if_pos hcount]

theorem C7_missing_fields_witness :
    splitTextJoinTrace (.text ⟨[("traceid", "1"), ("spanid", "2")], []⟩) 5 =
      .err (.missingFields 2) :=
  C7_missing_fields [("traceid", "1"), ("spanid", "2")] [] 5 (by decide) (by decide)

/-! ## Claim C8 -/

/-- C8: a text-carrier state map containing a key that (case-insensitively)
is none of traceid/spanid/sampled makes the Text Codec's deserialize return
an unknown-field error, even when every recognized entry (in particular all
three required keys) is present with a valid value. -/
theorem C8_unknown_field (st : List (String × String)) (attrs : AttrMap) (fresh : Int)
    (hbad : ∃ kv ∈ st, recognizedKey kv.1 = false)
    (hgood : ∀ kv ∈ st, recognizedKey kv.1 = true →
       (strToLower kv.1 = fieldNameTraceID → (parseInt64 kv.2).isSome = true) ∧
       (strToLower kv.1 = fieldNameSpanID → (parseInt64 kv.2).isSome = true) ∧
       (strToLower kv.1 = fieldNameSampled → (parseBool kv.2).isSome = true)) :
    isUnknownFieldErr (splitTextJoinTrace (.text ⟨st, attrs⟩) fresh) = true := by
  obtain ⟨k, hd, hkf⟩ := parseTracerState_unknown st hbad hgood 0 0 false 0
  simp only [splitTextJoinTrace, splitTextJoinCarrier, hd, isUnknownFieldErr]

theorem C8_unknown_field_witness :
    isUnknownFieldErr (splitTextJoinTrace
      (.text ⟨[("traceid", "1"), ("spanid", "2"), ("sampled", "true"), ("foo", "bar")], []⟩)
      5) = true :=
  C8_unknown_field [("traceid", "1"), ("spanid", "2"), ("sampled", "true"), ("foo", "bar")] [] 5
    ⟨("foo", "bar"), by decide, by decide⟩ (by decide)

/-! ## Claim C10 -/

/-- C10: a state map holding case-variant duplicates of traceid ("traceid"
and "TraceID") together with spanid and no sampled key counts each
duplicate toward the required-field count, reaches 3, and deserialize
succeeds (with the zero-value sampled flag) instead of reporting a
missing-field error. -/
theorem C10_duplicate_case_variant :
    splitTextJoinTrace (.text ⟨[("traceid", "1"), ("TraceID", "2"), ("spanid", "3")], []⟩) 77 =
      .ok ⟨2, 77, 3, false, []⟩ := by
  decide

/-! ## Claim C5 -/

/-- C5 counterexample: the HTTP wrapper's deserialize on a carrier that is
not an http.Header (here a SplitTextCarrier) panics via the unchecked type
assertion `carrier.(http.Header)` instead of returning the invalid-carrier
error. -/
theorem C5_http_panic_counterexample :
    goHTTPJoinTrace (.text ⟨[], []⟩) 5 = .panicked ∧
    goHTTPJoinTrace (.text ⟨[], []⟩) 5 ≠ .err .invalidCarrier :=
  ⟨rfl, by decide⟩

/-- C5 (amended): the text and binary codecs return the invalid-carrier
error immediately (producing no partial state) when the carrier is not of
the expected type, for both serialize and deserialize; the HTTP wrapper
instead panics on a non-http.Header carrier, in both directions, via its
unchecked type assertions. -/
theorem C5_invalid_carrier_amended :
    (∀ (c : Carrier) (sc : StandardContext) (fresh : Int), c.isText = false →
       splitTextInjectSpan sc c = .err .invalidCarrier ∧
       splitTextJoinTrace c fresh = .err .invalidCarrier) ∧
    (∀ (c : Carrier) (sc : StandardContext) (fresh : Int), c.isBinary = false →
       splitBinaryInjectSpan sc c = .err .invalidCarrier ∧
       splitBinaryJoinTrace c fresh = .err .invalidCarrier) ∧
    (∀ (c : Carrier) (sc : StandardContext) (fresh : Int), c.isHeader = false →
       goHTTPInjectSpan sc c = .panicked ∧
       goHTTPJoinTrace c fresh = .panicked) := by
  refine ⟨?_, ?_, ?_⟩
  · intro c sc fresh hc
    cases c with
    | text c2 => simp [Carrier.isText] at hc
    | binary c2 => exact ⟨rfl, rfl⟩
    | header h2 => exact ⟨rfl, rfl⟩
    | other => exact ⟨rfl, rfl⟩
  · intro c sc fresh hc
    cases c with
    | binary c2 => simp [Carrier.isBinary] at hc
    | text c2 => exact ⟨rfl, rfl⟩
    | header h2 => exact ⟨rfl, rfl⟩
    | other => exact ⟨rfl, rfl⟩
  · intro c sc fresh hc
    cases c with
    | header h2 => simp [Carrier.isHeader] at hc
    | text c2 => exact ⟨rfl, rfl⟩
    | binary c2 => exact ⟨rfl, rfl⟩
    | other => exact ⟨rfl, rfl⟩

theorem C5_invalid_carrier_amended_witness :
    (splitTextInjectSpan ⟨1, 2, 0, false, []⟩ .other = .err .invalidCarrier ∧
     splitTextJoinTrace .other 5 = .err .invalidCarrier) ∧
    (splitBinaryInjectSpan ⟨1, 2, 0, false, []⟩ .other = .err .invalidCarrier ∧
     splitBinaryJoinTrace .other 5 = .err .invalidCarrier) ∧
    (goHTTPInjectSpan ⟨1, 2, 0, false, []⟩ .other = .panicked ∧
     goHTTPJoinTrace .other 5 = .panicked) :=
  ⟨C5_invalid_carrier_amended.1 .other ⟨1, 2, 0, false, []⟩ 5 rfl,
   C5_invalid_carrier_amended.2.1 .other ⟨1, 2, 0, false, []⟩ 5 rfl,
   C5_invalid_carrier_amended.2.2 .other ⟨1, 2, 0, false, []⟩ 5 rfl⟩

/-! ## base64 lemmas -/

theorem b64Val_b64Char : ∀ n, n < 64 → b64Val (b64Char n) = some n := by decide

theorem b64Char_ne_pad : ∀ n, n < 64 → b64Char n ≠ '=' := by decide

theorem b64DecodeChunks_encode (bs : List Nat) (h : ∀ b ∈ bs, b < 256) :
    b64DecodeChunks (b64EncodeChunks bs) = some bs := by
  induction bs using b64EncodeChunks.induct with
  | case1 => rfl
  | case2 a =>
    have ha := h a (by simp)
    simp only [b64EncodeChunks, b64DecodeChunks,
      b64Val_b64Char (a / 4) (by omega), b64Val_b64Char (a % 4 * 16) (by omega)]
    simp only [if_true, and_self, Option.some.injEq, List.cons.injEq, and_true]
    omega
  | case3 a b =>
    have ha := h a (by simp)
    have hb := h b (by simp)
    have hne := b64Char_ne_pad (b % 16 * 4) (by omega)
    simp only [b64EncodeChunks, b64DecodeChunks,
      b64Val_b64Char (a / 4) (by omega), b64Val_b64Char (a % 4 * 16 + b / 16) (by omega),
      b64Val_b64Char (b % 16 * 4) (by omega), hne, if_false]
    simp only [if_true, Option.some.injEq, List.cons.injEq, and_true]
    constructor
    · omega
    · omega
  | case4 a b c rest ih =>
    have ha := h a (by simp)
    have hb := h b (by simp)
    have hc := h c (by simp)
    have hne3 := b64Char_ne_pad (b % 16 * 4 + c / 64) (by omega)
    have hne4 := b64Char_ne_pad (c % 64) (by omega)
    have ihr := ih (fun x hx => h x (by simp [hx]))
    simp only [b64EncodeChunks, b64DecodeChunks,
      b64Val_b64Char (a / 4) (by omega), b64Val_b64Char (a % 4 * 16 + b / 16) (by omega),
      b64Val_b64Char (b % 16 * 4 + c / 64) (by omega), b64Val_b64Char (c % 64) (by omega),
      hne3, hne4, if_false, ihr, Option.map_some', Option.some.injEq, List.cons.injEq]
    refine ⟨by omega, by omega, by omega, trivial⟩

theorem b64Decode_encode (bs : List Nat) (h : ∀ b ∈ bs, b < 256) :
    b64Decode (b64Encode bs) = some bs :=
  b64DecodeChunks_encode bs h

theorem encodeTracerState_lt (sc : StandardContext) :
    ∀ b ∈ encodeTracerState sc, b < 256 := by
  intro b hb
  simp only [encodeTracerState, List.mem_append, List.mem_singleton] at hb
  rcases hb with (hb | hb) | hb
  · exact encSigned_lt _ _ b hb
  · exact encSigned_lt _ _ b hb
  · subst hb
    unfold sampledByte
    split <;> norm_num

theorem encodeTraceAttributes_lt (attrs : AttrMap)
    (h : ∀ kv ∈ attrs, (∀ b ∈ kv.1, b < 256) ∧ (∀ b ∈ kv.2, b < 256)) :
    ∀ b ∈ encodeTraceAttributes attrs, b < 256 := by
  intro b hb
  simp only [encodeTraceAttributes, List.mem_append] at hb
  rcases hb with hb | hb
  · exact encSigned_lt _ _ b hb
  · rw [List.mem_flatten] at hb
    obtain ⟨l, hl, hbl⟩ := hb
    rw [List.mem_map] at hl
    obtain ⟨kv, hkv, rfl⟩ := hl
    simp only [encodeAttrEntry, List.mem_append] at hbl
    rcases hbl with ((hb1 | hb2) | hb3) | hb4
    · exact encSigned_lt _ _ b hb1
    · exact (h kv hkv).1 b hb2
    · exact encSigned_lt _ _ b hb3
    · exact (h kv hkv).2 b hb4

/-! ## HTTP header lemmas -/

theorem canonical_tracerState :
    canonicalHeaderKey tracerStateHeaderName = tracerStateHeaderName := by decide

theorem canonical_traceAttrs :
    canonicalHeaderKey traceAttrsHeaderName = traceAttrsHeaderName := by decide

theorem headerGet_none_find? (h : HttpHeader) (k : String)
    (habs : headerGet h k = none) :
    h.find? (fun p => p.1 == k) = none := by
  unfold headerGet at habs
  cases hf : h.find? (fun p => p.1 == k) with
  | none => rfl
  | some p => rw [hf] at habs; simp at habs

theorem headerAdd_absent (h : HttpHeader) (k v : String)
    (habs : headerGet h (canonicalHeaderKey k) = none) :
    headerAdd h k v = h ++ [(canonicalHeaderKey k, [v])] := by
  unfold headerAdd
  rw [if_neg]
  intro hany
  rw [List.any_eq_true] at hany
  obtain ⟨p, hp, hbeq⟩ := hany
  have hfind := List.find?_eq_none.mp (headerGet_none_find? h _ habs) p hp
  exact hfind hbeq

theorem headerGet_append_entry_self (h : HttpHeader) (ck : String) (vs : List String)
    (habs : headerGet h ck = none) :
    headerGet (h ++ [(ck, vs)]) ck = some vs := by
  unfold headerGet
  rw [List.find?_append, headerGet_none_find? h ck habs]
  simp [List.find?]

theorem headerGet_append_entry_other (h : HttpHeader) (e : String × List String) (k2 : String)
    (hne : (e.1 == k2) = false) :
    headerGet (h ++ [e]) k2 = headerGet h k2 := by
  unfold headerGet
  rw [List.find?_append]
  cases hf : h.find? (fun p => p.1 == k2) with
  | some p => rfl
  | none => simp [List.find?, hne]

/-! ## Claim C3 -/

/-- C3: serializing into fresh headers via the HTTP wrapper and
deserializing via the same wrapper produces exactly the outcome of
serializing and deserializing through the Binary Codec directly (the
wrapper only adds base64/header encoding); and on any header carrier whose
two header values decode, the wrapper returns the Binary Codec's result on
the decoded buffers unchanged. -/
theorem C3_http_binary_equivalence (sc : StandardContext) (h : HttpHeader) (fresh : Int)
    (hbytes : ∀ kv ∈ sc.traceAttrs, (∀ b ∈ kv.1, b < 256) ∧ (∀ b ∈ kv.2, b < 256))
    (h1 : headerGet h tracerStateHeaderName = none)
    (h2 : headerGet h traceAttrsHeaderName = none) :
    (goHTTPJoinTrace (.header (goHTTPInjectHeader sc h)) fresh =
       splitBinaryJoinTrace (.binary (splitBinaryInject sc)) fresh) ∧
    (∀ (h3 : HttpHeader) (v1 w1 : String) (vs ws : List String) (S A : List Nat),
       headerGet h3 tracerStateHeaderName = some (v1 :: vs) →
       headerGet h3 traceAttrsHeaderName = some (w1 :: ws) →
       b64Decode v1 = some S → b64Decode w1 = some A →
       goHTTPJoinTrace (.header h3) fresh = splitBinaryJoinBufs S A fresh) := by
  have hTSTA : (tracerStateHeaderName == traceAttrsHeaderName) = false := by decide
  have hTATS : (traceAttrsHeaderName == tracerStateHeaderName) = false := by decide
  constructor
  · have hstep1 : headerAdd h tracerStateHeaderName (b64Encode (splitBinaryInject sc).TracerState)
        = h ++ [(tracerStateHeaderName, [b64Encode (splitBinaryInject sc).TracerState])] := by
      rw [headerAdd_absent h _ _ (by rw [canonical_tracerState]; exact h1), canonical_tracerState]
    have hmid : headerGet (h ++ [(tracerStateHeaderName,
        [b64Encode (splitBinaryInject sc).TracerState])]) traceAttrsHeaderName = none := by
      rw [headerGet_append_entry_other _ _ _ hTSTA]
      exact h2
    have hstep2 : goHTTPInjectHeader sc h
        = (h ++ [(tracerStateHeaderName, [b64Encode (splitBinaryInject sc).TracerState])]) ++
          [(traceAttrsHeaderName, [b64Encode (splitBinaryInject sc).TraceAttributes])] := by
      unfold goHTTPInjectHeader
      rw [hstep1, headerAdd_absent _ _ _ (by rw [canonical_traceAttrs]; exact hmid),
        canonical_traceAttrs]
    have hget1 : headerGet (goHTTPInjectHeader sc h) tracerStateHeaderName
        = some [b64Encode (splitBinaryInject sc).TracerState] := by
      rw [hstep2, headerGet_append_entry_other _ _ _ hTATS,
        headerGet_append_entry_self h _ _ h1]
    have hget2 : headerGet (goHTTPInjectHeader sc h) traceAttrsHeaderName
        = some [b64Encode (splitBinaryInject sc).TraceAttributes] := by
      rw [hstep2, headerGet_append_entry_self _ _ _ hmid]
    have hdec1 : b64Decode (b64Encode (encodeTracerState sc))
        = some (encodeTracerState sc) :=
      b64Decode_encode _ (encodeTracerState_lt sc)
    have hdec2 : b64Decode (b64Encode (encodeTraceAttributes sc.traceAttrs))
        = some (encodeTraceAttributes sc.traceAttrs) :=
      b64Decode_encode _ (encodeTraceAttributes_lt sc.traceAttrs hbytes)
    simp only [goHTTPJoinTrace, canonical_tracerState, canonical_traceAttrs, hget1, hget2,
      hdec1, hdec2, splitBinaryJoinTrace, splitBinaryInject]
  · intro h3 v1 w1 vs ws S A hg1 hg2 hd1 hd2
    simp only [goHTTPJoinTrace, canonical_tracerState, canonical_traceAttrs, hg1, hg2, hd1, hd2]

theorem C3_http_binary_equivalence_witness :
    (goHTTPJoinTrace (.header (goHTTPInjectHeader
        ⟨42, 7, 0, true, [([117, 115, 101, 114], [97, 108, 105, 99, 101])]⟩ [])) 99 =
      splitBinaryJoinTrace (.binary (splitBinaryInject
        ⟨42, 7, 0, true, [([117, 115, 101, 114], [97, 108, 105, 99, 101])]⟩)) 99) ∧
    (goHTTPJoinTrace (.header [(tracerStateHeaderName, ["AAAAAAAAAAAAAAAAAAAAAAA="]),
        (traceAttrsHeaderName, ["AAAAAA=="])]) 5 =
      splitBinaryJoinBufs (List.replicate 17 0) [0, 0, 0, 0] 5) :=
  ⟨(C3_http_binary_equivalence ⟨42, 7, 0, true, [([117, 115, 101, 114], [97, 108, 105, 99, 101])]⟩
      [] 99 (by decide) rfl rfl).1,
   (C3_http_binary_equivalence ⟨42, 7, 0, true, [([117, 115, 101, 114], [97, 108, 105, 99, 101])]⟩
      [] 5 (by decide) rfl rfl).2
     [(tracerStateHeaderName, ["AAAAAAAAAAAAAAAAAAAAAAA="]), (traceAttrsHeaderName, ["AAAAAA=="])]
     "AAAAAAAAAAAAAAAAAAAAAAA=" "AAAAAA==" [] [] (List.replicate 17 0) [0, 0, 0, 0]
     (by decide) (by decide) (by decide) (by decide)⟩

/-! ## Claim C9 -/

/-- C9: a header carrier in which the Tracer-State header, or (with
Tracer-State present) the Trace-Attributes header, is absent or has an
empty value list deserializes as trace-not-found (not corrupted-trace);
when both are present only the first value under each name is
base64-decoded, a decoding failure is corrupted-trace, and on success the
Binary Codec runs on the two decoded buffers. -/
theorem C9_header_errors (h : HttpHeader) (fresh : Int) :
    ((headerGet h tracerStateHeaderName = none ∨
        headerGet h tracerStateHeaderName = some []) →
       goHTTPJoinTrace (.header h) fresh = .err .traceNotFound) ∧
    (∀ v1 vs, headerGet h tracerStateHeaderName = some (v1 :: vs) →
       (headerGet h traceAttrsHeaderName = none ∨
        headerGet h traceAttrsHeaderName = some []) →
       goHTTPJoinTrace (.header h) fresh = .err .traceNotFound) ∧
    (∀ v1 vs w1 ws, headerGet h tracerStateHeaderName = some (v1 :: vs) →
       headerGet h traceAttrsHeaderName = some (w1 :: ws) →
       (b64Decode v1 = none → goHTTPJoinTrace (.header h) fresh = .err .traceCorrupted) ∧
       (∀ S, b64Decode v1 = some S → b64Decode w1 = none →
          goHTTPJoinTrace (.header h) fresh = .err .traceCorrupted) ∧
       (∀ S A, b64Decode v1 = some S → b64Decode w1 = some A →
          goHTTPJoinTrace (.header h) fresh = splitBinaryJoinBufs S A fresh)) := by
  refine ⟨?_, ?_, ?_⟩
  · intro hc
    rcases hc with hc | hc <;>
      simp only [goHTTPJoinTrace, canonical_tracerState, canonical_traceAttrs, hc]
  · intro v1 vs hg1 hc
    rcases hc with hc | hc <;>
      simp only [goHTTPJoinTrace, canonical_tracerState, canonical_traceAttrs, hg1, hc]
  · intro v1 vs w1 ws hg1 hg2
    refine ⟨?_, ?_, ?_⟩
    · intro hd1
      simp only [goHTTPJoinTrace, canonical_tracerState, canonical_traceAttrs, hg1, hg2, hd1]
    · intro S hd1 hd2
      simp only [goHTTPJoinTrace, canonical_tracerState, canonical_traceAttrs, hg1, hg2, hd1, hd2]
    · intro S A hd1 hd2
      simp only [goHTTPJoinTrace, canonical_tracerState, canonical_traceAttrs, hg1, hg2, hd1, hd2]

theorem C9_header_errors_witness :
    goHTTPJoinTrace (.header [(tracerStateHeaderName, ["AAAA"])]) 5 = .err .traceNotFound ∧
    goHTTPJoinTrace (.header [(tracerStateHeaderName, ["!"]),
        (traceAttrsHeaderName, ["AAAA"])]) 5 = .err .traceCorrupted :=
  ⟨(C9_header_errors [(tracerStateHeaderName, ["AAAA"])] 5).2.1 "AAAA" [] (by decide)
     (Or.inl (by decide)),
   ((C9_header_errors [(tracerStateHeaderName, ["!"]), (traceAttrsHeaderName, ["AAAA"])] 5).2.2
     "!" [] "AAAA" [] (by decide) (by decide)).1 (by decide)⟩

/-! ## Heap lemmas and Claim C6 -/

theorem getD_append_self (l : List AttrMap) (m : AttrMap) :
    (l ++ [m]).getD l.length [] = m := by
  induction l with
  | nil => rfl
  | cons a t ih => simp [ih]

theorem getD_append_lt (l : List AttrMap) (m : AttrMap) (i : Nat) (h : i < l.length) :
    (l ++ [m]).getD i [] = l.getD i [] :=
  List.getD_append _ _ _ _ h

/-- C6 counterexample: the Text Codec's join hands the new context the very
map reference stored in the carrier. With one map allocated at address 0
serving as the carrier's attribute map, the joined context's attribute-map
address is again 0 — an alias of the carrier's map, not a fresh map — and
no allocation happened. -/
theorem C6_text_join_alias_counterexample :
    (splitTextJoinAttrs ⟨[[([107], [118])]]⟩ 0).2 = 0 ∧
    (splitTextJoinAttrs ⟨[[([107], [118])]]⟩ 0).1 = ⟨[[([107], [118])]]⟩ :=
  ⟨rfl, rfl⟩

/-- C6 (amended): injection never mutates the sender's attribute map (the
binary inject touches no map at all; the text inject allocates a fresh map
holding a copy of the sender's entries and leaves every existing map
unchanged), and the binary codec's join gives the new context a freshly
allocated map; but the Text Codec's join hands the new context the
carrier's attribute-map reference itself — an alias, not a fresh copy. -/
theorem C6_attrs_by_value_amended :
    (∀ (h : AttrHeap) (r : Nat), splitBinaryInjectAttrs h r = h) ∧
    (∀ (h : AttrHeap) (r : Nat),
       (splitTextInjectAttrs h r).1.get ((splitTextInjectAttrs h r).2) =
         copyAttrMap (h.get r) ∧
       ∀ i, i < h.maps.length →
         (splitTextInjectAttrs h r).1.get i = h.get i ∧ (splitTextInjectAttrs h r).2 ≠ i) ∧
    (∀ (h : AttrHeap) (m : AttrMap),
       (splitBinaryJoinAttrs h m).1.get ((splitBinaryJoinAttrs h m).2) = m ∧
       ∀ i, i < h.maps.length →
         (splitBinaryJoinAttrs h m).1.get i = h.get i ∧ (splitBinaryJoinAttrs h m).2 ≠ i) ∧
    (∀ (h : AttrHeap) (r : Nat), splitTextJoinAttrs h r = (h, r)) := by
  refine ⟨fun h r => rfl, ?_, ?_, fun h r => rfl⟩
  · intro h r
    constructor
    · show (h.maps ++ [copyAttrMap (h.get r)]).getD h.maps.length [] = _
      exact getD_append_self h.maps _
    · intro i hi
      constructor
      · show (h.maps ++ [copyAttrMap (h.get r)]).getD i [] = h.maps.getD i []
        exact getD_append_lt h.maps _ i hi
      · show h.maps.length ≠ i
        omega
  · intro h m
    constructor
    · show (h.maps ++ [m]).getD h.maps.length [] = m
      exact getD_append_self h.maps m
    · intro i hi
      constructor
      · show (h.maps ++ [m]).getD i [] = h.maps.getD i []
        exact getD_append_lt h.maps m i hi
      · show h.maps.length ≠ i
        omega

theorem C6_attrs_by_value_amended_witness :
    splitBinaryInjectAttrs ⟨[[([107], [118])]]⟩ 0 = ⟨[[([107], [118])]]⟩ ∧
    (splitTextInjectAttrs ⟨[[([107], [118])]]⟩ 0).1.get 0 = [([107], [118])] ∧
    (splitTextInjectAttrs ⟨[[([107], [118])]]⟩ 0).2 ≠ 0 ∧
    (splitBinaryJoinAttrs ⟨[[([107], [118])]]⟩ [([1], [2])]).2 ≠ 0 ∧
    splitTextJoinAttrs ⟨[[([107], [118])]]⟩ 0 = (⟨[[([107], [118])]]⟩, 0) :=
  ⟨C6_attrs_by_value_amended.1 ⟨[[([107], [118])]]⟩ 0,
   ((C6_attrs_by_value_amended.2.1 ⟨[[([107], [118])]]⟩ 0).2 0 (by decide)).1,
   ((C6_attrs_by_value_amended.2.1 ⟨[[([107], [118])]]⟩ 0).2 0 (by decide)).2,
   ((C6_attrs_by_value_amended.2.2.1 ⟨[[([107], [118])]]⟩ [([1], [2])]).2 0 (by decide)).2,
   C6_attrs_by_value_amended.2.2.2 ⟨[[([107], [118])]]⟩ 0⟩
